import Mathlib

/-!
Verification of the Turing stream cipher implementation (package `turing`).

The definitions below are a shallow embedding of the Go source: 32-bit words
are modelled as `Nat` with explicit reduction `% 2^32` wherever the Go code
relies on `uint32` overflow, byte slices as `List Nat`, and the mutable
`Cipher` struct as a record passed functionally.
-/

namespace Turing

/-- The modulus of `uint32` arithmetic, 2^32. -/
def M32 : Nat := 2 ^ 32

/-- Modelled from the spec: the fixed algorithm tables, whose literal contents
live in a table file that is not part of the embedded sources.  `sbox` is the
256-entry byte-valued substitution box, `qbox` the 256-entry word-valued
mixing box, and `mtab` the 256-entry word table (derived from `sbox`) used
during LFSR clocking.  All development below is parametric in these tables;
none of the verified properties depends on their concrete contents. -/
structure Tables where
  sbox : Nat → Nat
  qbox : Nat → Nat
  mtab : Nat → Nat

/-- Function `getOctet` from util.go: extract byte `n` (big-endian, 0 = most
significant) of a 32-bit word. -/
def getOctet (word : Nat) (n : Nat) : Nat :=
  (word >>> (24 - n * 8)) &&& 0xff

/-- Function `splitWord` from util.go: big-endian byte decomposition of a word. -/
def splitWord (word : Nat) : List Nat :=
  [(word >>> 24) &&& 0xff, (word >>> 16) &&& 0xff, (word >>> 8) &&& 0xff,
   word &&& 0xff]

/-- Function `joinWord` from util.go: big-endian packing of 4 bytes into a word. -/
def joinWord (octets : List Nat) : Nat :=
  (octets.getD 0 0 <<< 24) ||| (octets.getD 1 0 <<< 16) |||
  (octets.getD 2 0 <<< 8) ||| octets.getD 3 0

/-- Function `rotl` from util.go: 32-bit rotate left (Go shifts by ≥ 32 yield 0). -/
def rotl (word : Nat) (shift : Nat) : Nat :=
  ((word <<< shift) % M32) ||| (word >>> (32 - shift))

/-- Function `rotr` from util.go: 32-bit rotate right. -/
def rotr (word : Nat) (shift : Nat) : Nat :=
  (word >>> shift) ||| ((word <<< (32 - shift)) % M32)

/-- The `Cipher` struct: derived key words, the four keyed substitution
tables, the 17-word register, the 20-byte keystream buffer and the cursor. -/
structure Cipher where
  key : List Nat
  keybox : List (List Nat)
  reg : List Nat
  buffer : List Nat
  bufpos : Nat
deriving Repr, DecidableEq

/-- The zero value `&Cipher{}` allocated by `NewCipher`. -/
def zeroCipher : Cipher :=
  ⟨[], List.replicate 4 (List.replicate 256 0), List.replicate 17 0,
   List.replicate 20 0, 0⟩

/-- Function `fixedS`: the fixed substitution transform on a word, one byte lane at a
time from most significant to least. -/
def fixedS (t : Tables) (word : Nat) : Nat :=
  (List.range 4).foldl (fun w i =>
    let shift := i * 8
    let octet := t.sbox (getOctet w i)
    ((w ^^^ rotl (t.qbox octet) shift) &&& rotr 0xffffff shift) |||
      ((octet <<< (24 - shift)) % M32)) word

/-- Function `hadamard`: pseudo-Hadamard transform — wrap-sum all words, zero the last
word, then add the sum to every word (mod 2^32). -/
def hadamard (words : List Nat) : List Nat :=
  let sum := words.foldl (fun s w => (s + w) % M32) 0
  (words.set (words.length - 1) 0).map (fun w => (w + sum) % M32)

/-- Function `keyedS`: XOR together the keyed-table entries selected by the four bytes
of the (rotated) input word. -/
def keyedS (keybox : List (List Nat)) (word : Nat) (rotate : Nat) : Nat :=
  ((splitWord (rotl word rotate)).enum).foldl
    (fun s p => s ^^^ (keybox.getD p.1 []).getD p.2 0) 0

/-- Function `initKey`: derive the key words (big-endian packing, `fixedS`, then
`hadamard`) and precompute the four 256-entry keyed substitution tables. -/
def initKey (t : Tables) (c : Cipher) (key : List Nat) : Cipher :=
  let kw := hadamard ((List.range (key.length / 4)).map (fun i =>
    fixedS t (joinWord [key.getD (i * 4) 0, key.getD (i * 4 + 1) 0,
                        key.getD (i * 4 + 2) 0, key.getD (i * 4 + 3) 0])))
  let keybox := (List.range 4).map (fun box =>
    (List.range 256).map (fun i =>
      let shift := box * 8
      let p := kw.enum.foldl (fun (p : Nat × Nat) kp =>
        let octet := t.sbox (getOctet kp.2 box ^^^ p.1)
        (octet, p.2 ^^^ rotl (t.qbox octet) (kp.1 + shift))) (i, 0)
      (p.2 &&& rotr 0xffffff shift) ||| ((p.1 <<< (24 - shift)) % M32)))
  ⟨kw, keybox, c.reg, c.buffer, c.bufpos⟩

/-- The `confounder` constant. -/
def confounder : Nat := 0x1020300

/-- Function `initIV`: seed the register with the substituted IV words, the key words
and the marker word, fill the remaining slots by the keyed recurrence, then
apply the pseudo-Hadamard transform across all 17 words. -/
def initIV (t : Tables) (c : Cipher) (iv : List Nat) : Cipher :=
  let ivw := (List.range (iv.length / 4)).map (fun i =>
    fixedS t (joinWord [iv.getD (i * 4) 0, iv.getD (i * 4 + 1) 0,
                        iv.getD (i * 4 + 2) 0, iv.getD (i * 4 + 3) 0]))
  let r0 := ivw ++ c.key ++
    [confounder ||| (c.key.length <<< 4) ||| (iv.length / 4)]
  let filled := (List.range (17 - r0.length)).foldl (fun acc i =>
    acc ++ [keyedS c.keybox ((acc.getD i 0 + acc.getD (acc.length - 1) 0) % M32) 0]) r0
  ⟨c.key, c.keybox, hadamard filled, c.buffer, c.bufpos⟩

/-- Function `clockRegister`: compute the feedback word from the pre-shift register,
shift every word down one index, and append the feedback word. -/
def clockRegister (t : Tables) (reg : List Nat) : List Nat :=
  let word := reg.getD 15 0 ^^^ reg.getD 4 0 ^^^ ((reg.getD 0 0 <<< 8) % M32) ^^^
    t.mtab (reg.getD 0 0 >>> 24)
  reg.tail ++ [word]

/-- Function `nextRound`: one round of the round engine, producing 20 keystream bytes
and advancing the register by 5 clocks. -/
def nextRound (t : Tables) (c : Cipher) : Cipher :=
  let r1 := clockRegister t c.reg
  let a := r1.getD 16 0
  let b := r1.getD 13 0
  let cw := r1.getD 6 0
  let d := r1.getD 1 0
  let e := r1.getD 0 0
  let e := (e + a + b + cw + d) % M32
  let a := (a + e) % M32
  let b := (b + e) % M32
  let cw := (cw + e) % M32
  let d := (d + e) % M32
  let a := keyedS c.keybox a 0
  let b := keyedS c.keybox b 8
  let cw := keyedS c.keybox cw 16
  let d := keyedS c.keybox d 24
  let e := keyedS c.keybox e 0
  let e := (e + a + b + cw + d) % M32
  let a := (a + e) % M32
  let b := (b + e) % M32
  let cw := (cw + e) % M32
  let d := (d + e) % M32
  let r4 := clockRegister t (clockRegister t (clockRegister t r1))
  let a := (a + r4.getD 14 0) % M32
  let b := (b + r4.getD 12 0) % M32
  let cw := (cw + r4.getD 8 0) % M32
  let d := (d + r4.getD 1 0) % M32
  let e := (e + r4.getD 0 0) % M32
  ⟨c.key, c.keybox,
   clockRegister t r4,
   splitWord a ++ splitWord b ++ splitWord cw ++ splitWord d ++ splitWord e,
   0⟩

/-- Function `XORKeyStream`: XOR each source byte with the next keystream byte,
refilling the 20-byte buffer by `nextRound` whenever the cursor reaches 20.
Returns the output bytes together with the updated cipher state. -/
def XORKeyStream (t : Tables) (c : Cipher) (src : List Nat) :
    List Nat × Cipher :=
  match src with
  | [] => ([], c)
  | x :: xs =>
    let c1 := if c.bufpos = 20 then nextRound t c else c
    let y := x ^^^ c1.buffer.getD c1.bufpos 0
    let r := XORKeyStream t ⟨c1.key, c1.keybox, c1.reg, c1.buffer, c1.bufpos + 1⟩ xs
    (y :: r.1, r.2)

/-- Function `Reset`: zero the key words, all keyed-table entries, the register, the
buffer, and the cursor (shapes are preserved; only contents are zeroed). -/
def Reset (c : Cipher) : Cipher :=
  ⟨c.key.map (fun _ => 0), c.keybox.map (fun box => box.map (fun _ => 0)),
   c.reg.map (fun _ => 0), c.buffer.map (fun _ => 0), 0⟩

/-- Function `NewCipher`: validate the key and IV sizes (in source order) and, on
success, build the cipher via `initKey`, `initIV` and one initial round. -/
def NewCipher (t : Tables) (key iv : List Nat) : Except String Cipher :=
  if key.length % 4 ≠ 0 then .error "key size must be a multiple of 4"
  else if iv.length % 4 ≠ 0 then .error "iv size must be a multiple of 4"
  else if key.length < 8 then .error "key size must be >= 8"
  else if key.length > 32 then .error "key size must be <= 32"
  else if key.length + iv.length > 48 then
    .error "combined key and iv sizes must be <= 48"
  else .ok (nextRound t (initIV t (initKey t zeroCipher key) iv))

/-! ### Specification-side definitions -/

/-- The feedback word actually computed by `clockRegister`: taps at indices
15, 4 and 0. -/
def feedbackWord (t : Tables) (reg : List Nat) : Nat :=
  reg.getD 15 0 ^^^ reg.getD 4 0 ^^^ ((reg.getD 0 0 <<< 8) % M32) ^^^
    t.mtab (reg.getD 0 0 >>> 24)

/-- The feedback word as the specification words it: XOR of register[16],
register[4], register[0] shifted left by 8 bits, and the table entry indexed
by the top byte of register[0]. -/
def claimedFeedback (t : Tables) (reg : List Nat) : Nat :=
  reg.getD 16 0 ^^^ reg.getD 4 0 ^^^ ((reg.getD 0 0 <<< 8) % M32) ^^^
    t.mtab (reg.getD 0 0 >>> 24)

/-- One register clock as the specification words it: index `i` receives
index `i + 1`, and the claimed feedback word goes to position 16. -/
def clockRegisterClaimed (t : Tables) (reg : List Nat) : List Nat :=
  (List.range 17).map (fun i =>
    if i < 16 then reg.getD (i + 1) 0 else claimedFeedback t reg)

/-- One register clock with the claimed feedback tap corrected from
register[16] to register[15] (the tap the code actually reads). -/
def clockRegisterAmended (t : Tables) (reg : List Nat) : List Nat :=
  (List.range 17).map (fun i =>
    if i < 16 then reg.getD (i + 1) 0 else feedbackWord t reg)

/-- The first violated size constraint, in the specification's order, as the
error message the constructor reports; `none` when all five hold. -/
def firstViolation (keylen ivlen : Nat) : Option String :=
  if keylen % 4 ≠ 0 then some "key size must be a multiple of 4"
  else if ivlen % 4 ≠ 0 then some "iv size must be a multiple of 4"
  else if keylen < 8 then some "key size must be >= 8"
  else if keylen > 32 then some "key size must be <= 32"
  else if keylen + ivlen > 48 then some "combined key and iv sizes must be <= 48"
  else none

/-- The error carried by a constructor result, if any. -/
def errOf : Except String Cipher → Option String
  | .error e => some e
  | .ok _ => none

/-- All-zero tables: a concrete instance used to evaluate the parametric
development on explicit inputs. -/
def T0 : Tables := ⟨fun _ => 0, fun _ => 0, fun _ => 0⟩

/-- A concrete valid key: 8 zero bytes. -/
def k0 : List Nat := List.replicate 8 0

/-- The cipher built from `k0` with an empty IV over `T0`. -/
def c0 : Cipher := nextRound T0 (initIV T0 (initKey T0 zeroCipher k0) [])

/-- A concrete 17-word register distinguishing taps 15 and 16. -/
def regCex : List Nat := List.replicate 15 0 ++ [1, 2]

/-- The five-way pseudo-Hadamard mixing step of the round function:
`e += a + b + c + d`, then each of `a`, `b`, `c`, `d` gains `e`. -/
def pht5 (a b cw d e : Nat) : Nat × Nat × Nat × Nat × Nat :=
  let e' := (e + a + b + cw + d) % M32
  ((a + e') % M32, (b + e') % M32, (cw + e') % M32, (d + e') % M32, e')

/-- The round keystream as the specification words it: taps 16,13,6,1,0 after
one clock, mixing, keyed substitution with rotations 0,8,16,24,0, mixing
again, fresh taps 14,12,8,1,0 after four clocks, big-endian serialization. -/
def roundOutput (t : Tables) (c : Cipher) : List Nat :=
  let r1 := (fun r => clockRegister t r)^[1] c.reg
  let m1 := pht5 (r1.getD 16 0) (r1.getD 13 0) (r1.getD 6 0) (r1.getD 1 0)
    (r1.getD 0 0)
  let m2 := pht5 (keyedS c.keybox m1.1 0) (keyedS c.keybox m1.2.1 8)
    (keyedS c.keybox m1.2.2.1 16) (keyedS c.keybox m1.2.2.2.1 24)
    (keyedS c.keybox m1.2.2.2.2 0)
  let r4 := (fun r => clockRegister t r)^[4] c.reg
  splitWord ((m2.1 + r4.getD 14 0) % M32) ++
  splitWord ((m2.2.1 + r4.getD 12 0) % M32) ++
  splitWord ((m2.2.2.1 + r4.getD 8 0) % M32) ++
  splitWord ((m2.2.2.2.1 + r4.getD 1 0) % M32) ++
  splitWord ((m2.2.2.2.2 + r4.getD 0 0) % M32)

/-- The state invariants of a constructed cipher. -/
def Inv (c : Cipher) : Prop :=
  2 ≤ c.key.length ∧ c.key.length ≤ 8 ∧ c.reg.length = 17 ∧
    c.keybox.length = 4 ∧ (∀ box ∈ c.keybox, box.length = 256) ∧
    c.bufpos ≤ 20

instance (c : Cipher) : Decidable (Inv c) := by
  unfold Inv; infer_instance

/-! ### Helper lemmas -/

theorem clockRegister_eq_append (t : Tables) (reg : List Nat) :
    clockRegister t reg = reg.tail ++ [feedbackWord t reg] := rfl

theorem newCipher_k0 : NewCipher T0 k0 [] = .ok c0 := rfl

/-- Two successful constructions from the same key/IV yield the same state. -/
theorem newCipher_ok_unique {t : Tables} {key iv : List Nat} {c c' : Cipher}
    (h : NewCipher t key iv = .ok c) (h' : NewCipher t key iv = .ok c') :
    c = c' := by
  rw [h] at h'
  exact Except.ok.inj h'

/-- XORing the same keystream twice from the same starting state restores
the source bytes. -/
theorem xorKeyStream_xor_twice (t : Tables) (c : Cipher) (src : List Nat) :
    (XORKeyStream t c (XORKeyStream t c src).1).1 = src := by
  induction src generalizing c with
  | nil => rfl
  | cons x xs ih =>
    simp only [XORKeyStream]
    rw [Nat.xor_cancel_right, ih]

/-- The keystream consumed does not depend on how a request is split:
processing `s1 ++ s2` equals processing `s1`, then `s2` from the resulting
state. -/
theorem xorKeyStream_append (t : Tables) (c : Cipher) (s1 s2 : List Nat) :
    XORKeyStream t c (s1 ++ s2) =
      ((XORKeyStream t c s1).1 ++
         (XORKeyStream t (XORKeyStream t c s1).2 s2).1,
       (XORKeyStream t (XORKeyStream t c s1).2 s2).2) := by
  induction s1 generalizing c with
  | nil => simp [XORKeyStream]
  | cons x xs ih => simp [XORKeyStream, ih]

theorem hadamard_length (ws : List Nat) : (hadamard ws).length = ws.length := by
  simp [hadamard]

theorem clockRegister_length (t : Tables) (reg : List Nat)
    (h : reg.length = 17) : (clockRegister t reg).length = 17 := by
  simp [clockRegister_eq_append, h]

theorem nextRound_reg_length (t : Tables) (c : Cipher)
    (h : c.reg.length = 17) : (nextRound t c).reg.length = 17 :=
  clockRegister_length _ _ (clockRegister_length _ _ (clockRegister_length _ _
    (clockRegister_length _ _ (clockRegister_length _ _ h))))

theorem nextRound_inv (t : Tables) (c : Cipher) (h : Inv c) :
    Inv (nextRound t c) :=
  ⟨h.1, h.2.1, nextRound_reg_length t c h.2.2.1, h.2.2.2.1, h.2.2.2.2.1,
   Nat.zero_le 20⟩

theorem xorKeyStream_inv (t : Tables) (c : Cipher) (src : List Nat)
    (h : Inv c) : Inv (XORKeyStream t c src).2 := by
  induction src generalizing c with
  | nil => exact h
  | cons x xs ih =>
    simp only [XORKeyStream]
    by_cases hb : c.bufpos = 20
    · simp only [if_pos hb]
      obtain ⟨h1, h2, h3, h4, h5, _⟩ := nextRound_inv t c h
      have hz : (nextRound t c).bufpos = 0 := rfl
      exact ih _ ⟨h1, h2, h3, h4, h5,
        by show (nextRound t c).bufpos + 1 ≤ 20; omega⟩
    · simp only [if_neg hb]
      obtain ⟨h1, h2, h3, h4, h5, h6⟩ := h
      exact ih _ ⟨h1, h2, h3, h4, h5, by show c.bufpos + 1 ≤ 20; omega⟩

theorem reset_inv (c : Cipher) (h : Inv c) : Inv (Reset c) := by
  obtain ⟨h1, h2, h3, h4, h5, _⟩ := h
  refine ⟨by simpa [Reset] using h1, by simpa [Reset] using h2,
    by simpa [Reset] using h3, by simpa [Reset] using h4, ?_, Nat.zero_le 20⟩
  intro box hbox
  simp only [Reset, List.mem_map] at hbox
  obtain ⟨b, hb, rfl⟩ := hbox
  simpa using h5 b hb

theorem length_foldl_append (l : List Nat) (init : List Nat)
    (g : List Nat → Nat → Nat) :
    (l.foldl (fun acc i => acc ++ [g acc i]) init).length =
      init.length + l.length := by
  induction l generalizing init with
  | nil => simp
  | cons x xs ih => simp [ih]; omega

theorem initKey_inv (t : Tables) (key : List Nat) (h8 : 8 ≤ key.length)
    (h32 : key.length ≤ 32) : Inv (initKey t zeroCipher key) := by
  refine ⟨?_, ?_, ?_, ?_, ?_, Nat.zero_le 20⟩
  · show (hadamard _).length ≥ 2
    rw [hadamard_length, List.length_map, List.length_range]
    omega
  · show (hadamard _).length ≤ 8
    rw [hadamard_length, List.length_map, List.length_range]
    omega
  · show (zeroCipher.reg).length = 17
    rfl
  · show ((List.range 4).map _).length = 4
    simp
  · intro box hbox
    simp only [initKey, List.mem_map] at hbox
    obtain ⟨b, _, rfl⟩ := hbox
    rw [List.length_map, List.length_range]

theorem initIV_inv (t : Tables) (c : Cipher) (iv : List Nat) (h : Inv c)
    (hbound : iv.length / 4 + c.key.length + 1 ≤ 17) :
    Inv (initIV t c iv) := by
  obtain ⟨h1, h2, _, h4, h5, h6⟩ := h
  refine ⟨h1, h2, ?_, h4, h5, h6⟩
  show (hadamard _).length = 17
  rw [hadamard_length, length_foldl_append]
  simp only [List.length_range, List.length_append, List.length_map,
    List.length_singleton]
  omega

theorem newCipher_inv (t : Tables) (key iv : List Nat) (c : Cipher)
    (h : NewCipher t key iv = .ok c) : Inv c := by
  rw [NewCipher] at h
  split_ifs at h with h1 h2 h3 h4 h5
  obtain rfl := (Except.ok.inj h).symm
  apply nextRound_inv
  apply initIV_inv
  · exact initKey_inv t key (by omega) (by omega)
  · have hk : (initKey t zeroCipher key).key.length = key.length / 4 := by
      show (hadamard _).length = _
      rw [hadamard_length, List.length_map, List.length_range]
    rw [hk]
    omega

theorem newCipher_ok_form (t : Tables) (key iv : List Nat) (c : Cipher)
    (h : NewCipher t key iv = .ok c) :
    c = nextRound t (initIV t (initKey t zeroCipher key) iv) := by
  rw [NewCipher] at h
  split_ifs at h
  exact (Except.ok.inj h).symm

/-- As long as the request fits in the remaining buffer, `XORKeyStream` only
XORs against buffered bytes and advances the cursor; it never refills. -/
theorem xorKeyStream_no_refill (t : Tables) (c : Cipher) (src : List Nat)
    (h : c.bufpos + src.length ≤ 20) :
    XORKeyStream t c src =
      ((List.range src.length).map
        (fun i => src.getD i 0 ^^^ c.buffer.getD (c.bufpos + i) 0),
       ⟨c.key, c.keybox, c.reg, c.buffer, c.bufpos + src.length⟩) := by
  induction src generalizing c with
  | nil =>
    obtain ⟨k, kb, r, bf, bp⟩ := c
    simp [XORKeyStream]
  | cons x xs ih =>
    have hlt : c.bufpos < 20 := by
      simp only [List.length_cons] at h
      omega
    have hih := ih ⟨c.key, c.keybox, c.reg, c.buffer, c.bufpos + 1⟩
      (by simp only [List.length_cons] at h ⊢; omega)
    simp only [XORKeyStream, if_neg (Nat.ne_of_lt hlt)]
    rw [hih]
    simp only [List.length_cons, List.range_succ_eq_map, List.map_cons,
      List.map_map, Prod.mk.injEq]
    refine ⟨?_, ?_⟩
    · have hhead : (x :: xs).getD 0 0 ^^^ c.buffer.getD (c.bufpos + 0) 0
          = x ^^^ c.buffer.getD c.bufpos 0 := by simp
      rw [hhead]
      congr 1
      apply List.map_congr_left
      intro i _
      have harith : c.bufpos + 1 + i = c.bufpos + (i + 1) := by omega
      simp only [Function.comp_apply, List.getD_cons_succ, harith]
    · congr 1
      omega

/-! ### Claims -/

/-- C1, counterexample: on a register whose words at indices 15 and 16
differ, `clockRegister` does not compute the feedback word from
register[16] as the specification claims. -/
theorem clockRegister_claim_cex :
    regCex.length = 17 ∧
      clockRegister T0 regCex ≠ clockRegisterClaimed T0 regCex := by
  decide

/-- C1 (amended: the first feedback tap is register[15], not register[16]):
for every 17-word register state, `clockRegister` computes the new feedback
word as the XOR of register[15], register[4], register[0] shifted left by 8
bits, and the fixed table entry indexed by the top byte of register[0], then
shifts every register word left by one position (index `i` receives index
`i + 1`) and places the new word at position 16. -/
theorem clockRegister_spec (t : Tables) (reg : List Nat)
    (h : reg.length = 17) :
    clockRegister t reg = clockRegisterAmended t reg := by
  apply List.ext_getElem
  · simp [clockRegister_eq_append, clockRegisterAmended, h]
  · intro i h1 h2
    simp only [clockRegister_eq_append, List.length_append, List.length_tail,
      h, List.length_singleton] at h1
    simp only [clockRegister_eq_append, clockRegisterAmended,
      List.getElem_map, List.getElem_range]
    rcases Nat.lt_or_ge i 16 with hi | hi
    · rw [List.getElem_append_left (by simp [h]; omega)]
      rw [if_pos hi, List.getElem_tail]
      rw [List.getD_eq_getElem reg 0 (by omega)]
    · have h16 : i = 16 := by omega
      subst h16
      rw [List.getElem_append_right (by simp [h])]
      simp [h]

/-- C1 witness: the amended claim evaluated on `regCex`. -/
theorem clockRegister_spec_witness :
    clockRegister T0 regCex = clockRegisterAmended T0 regCex :=
  clockRegister_spec T0 regCex (by decide)

/-- C2: `nextRound` leaves key material and keyed tables unchanged, advances
the register by exactly 5 clocks, resets the cursor to 0, and fills the
20-byte buffer with the claimed mix/substitute/mix/serialize computation on
taps 16,13,6,1,0 (after 1 clock) and 14,12,8,1,0 (after 4 clocks). -/
theorem nextRound_spec (t : Tables) (c : Cipher) :
    (nextRound t c).key = c.key ∧
      (nextRound t c).keybox = c.keybox ∧
      (nextRound t c).bufpos = 0 ∧
      (nextRound t c).reg = (fun r => clockRegister t r)^[5] c.reg ∧
      (nextRound t c).buffer = roundOutput t c ∧
      (nextRound t c).buffer.length = 20 :=
  ⟨rfl, rfl, rfl, rfl, rfl, rfl⟩

/-- C4: encrypting with a freshly constructed cipher and then decrypting the
result with a second, independently constructed cipher over the same key
and IV restores the original bytes. -/
theorem xorKeyStream_involution (t : Tables) (key iv : List Nat)
    (c c' : Cipher) (h : NewCipher t key iv = .ok c)
    (h' : NewCipher t key iv = .ok c') (data : List Nat) :
    (XORKeyStream t c' (XORKeyStream t c data).1).1 = data := by
  rw [newCipher_ok_unique h h']
  exact xorKeyStream_xor_twice t c' data

/-- C4 witness: the involution evaluated on a concrete cipher and data. -/
theorem xorKeyStream_involution_witness :
    (XORKeyStream T0 c0 (XORKeyStream T0 c0 [1, 2, 3, 7, 255]).1).1 =
      [1, 2, 3, 7, 255] :=
  xorKeyStream_involution T0 k0 [] c0 c0 newCipher_k0 newCipher_k0
    [1, 2, 3, 7, 255]

/-- C5: two ciphers constructed from the identical key and IV produce
identical keystreams for any requested length, and XOR any source
identically. -/
theorem newCipher_deterministic (t : Tables) (key iv : List Nat)
    (c₁ c₂ : Cipher) (n : Nat) (src : List Nat)
    (h₁ : NewCipher t key iv = .ok c₁) (h₂ : NewCipher t key iv = .ok c₂) :
    (XORKeyStream t c₁ (List.replicate n 0)).1 =
        (XORKeyStream t c₂ (List.replicate n 0)).1 ∧
      XORKeyStream t c₁ src = XORKeyStream t c₂ src := by
  rw [newCipher_ok_unique h₁ h₂]
  exact ⟨rfl, rfl⟩

/-- C5 witness: determinism evaluated on a concrete cipher. -/
theorem newCipher_deterministic_witness :
    (XORKeyStream T0 c0 (List.replicate 5 0)).1 =
        (XORKeyStream T0 c0 (List.replicate 5 0)).1 ∧
      XORKeyStream T0 c0 [9, 9] = XORKeyStream T0 c0 [9, 9] :=
  newCipher_deterministic T0 k0 [] c0 c0 5 [9, 9] newCipher_k0 newCipher_k0

/-- C6: a single request of 25 bytes equals the concatenation of requests of
12 and 13 bytes against an independently constructed cipher with the same
key/IV; in general the keystream is independent of call splitting. -/
theorem xorKeyStream_split (t : Tables) (key iv : List Nat) (c c' : Cipher)
    (src s1 s2 : List Nat) (h : NewCipher t key iv = .ok c)
    (h' : NewCipher t key iv = .ok c') (hlen : src.length = 25) :
    (src.take 12).length = 12 ∧ (src.drop 12).length = 13 ∧
      (XORKeyStream t c src).1 =
        (XORKeyStream t c' (src.take 12)).1 ++
          (XORKeyStream t (XORKeyStream t c' (src.take 12)).2
            (src.drop 12)).1 ∧
      (XORKeyStream t c (s1 ++ s2)).1 =
        (XORKeyStream t c s1).1 ++
          (XORKeyStream t (XORKeyStream t c s1).2 s2).1 := by
  refine ⟨by simp [hlen], by simp [hlen], ?_, ?_⟩
  · rw [newCipher_ok_unique h h']
    conv_lhs => rw [← List.take_append_drop 12 src]
    rw [xorKeyStream_append]
  · rw [xorKeyStream_append]

/-- C6 witness: splitting a concrete 25-byte request as 12 + 13. -/
theorem xorKeyStream_split_witness :
    ((List.range 25).take 12).length = 12 ∧
      ((List.range 25).drop 12).length = 13 ∧
      (XORKeyStream T0 c0 (List.range 25)).1 =
        (XORKeyStream T0 c0 ((List.range 25).take 12)).1 ++
          (XORKeyStream T0 (XORKeyStream T0 c0 ((List.range 25).take 12)).2
            ((List.range 25).drop 12)).1 ∧
      (XORKeyStream T0 c0 ([4] ++ [5, 6])).1 =
        (XORKeyStream T0 c0 [4]).1 ++
          (XORKeyStream T0 (XORKeyStream T0 c0 [4]).2 [5, 6]).1 :=
  xorKeyStream_split T0 k0 [] c0 c0 (List.range 25) [4] [5, 6]
    newCipher_k0 newCipher_k0 (by simp)

/-- C3: the constructor checks the five size constraints in the documented
order, reports the first violated one, and succeeds exactly when all hold. -/
theorem newCipher_validation (t : Tables) (key iv : List Nat) :
    errOf (NewCipher t key iv) = firstViolation key.length iv.length ∧
      (firstViolation key.length iv.length = none ↔
        ∃ c, NewCipher t key iv = .ok c) := by
  unfold NewCipher firstViolation
  split_ifs <;> simp [errOf]

/-- C7: after `Reset` the key words, all keyed-table entries, the register
words, the buffer bytes and the cursor all read as zero, with every shape
preserved. -/
theorem reset_zeroes (c : Cipher) :
    (Reset c).key = List.replicate c.key.length 0 ∧
      (Reset c).keybox = c.keybox.map (fun box => List.replicate box.length 0) ∧
      (Reset c).reg = List.replicate c.reg.length 0 ∧
      (Reset c).buffer = List.replicate c.buffer.length 0 ∧
      (Reset c).bufpos = 0 := by
  refine ⟨?_, ?_, ?_, ?_, rfl⟩ <;>
    simp [Reset, List.map_const']

/-- C8: construction establishes the state invariants, and — from any state
satisfying them, hence from every state reachable by these operations —
stream application and reset preserve them. -/
theorem invariants_preserved (t : Tables) (key iv : List Nat) (c c' : Cipher)
    (src : List Nat) (h : NewCipher t key iv = .ok c) (h' : Inv c') :
    Inv c ∧ Inv (XORKeyStream t c src).2 ∧ Inv (Reset c) ∧
      Inv (XORKeyStream t c' src).2 ∧ Inv (Reset c') :=
  ⟨newCipher_inv t key iv c h,
   xorKeyStream_inv t c src (newCipher_inv t key iv c h),
   reset_inv c (newCipher_inv t key iv c h),
   xorKeyStream_inv t c' src h', reset_inv c' h'⟩

/-- C8 witness: the invariants evaluated on a concrete cipher. -/
theorem invariants_preserved_witness :
    Inv c0 ∧ Inv (XORKeyStream T0 c0 [5]).2 ∧ Inv (Reset c0) ∧
      Inv (XORKeyStream T0 (Reset c0) [5]).2 ∧ Inv (Reset (Reset c0)) :=
  invariants_preserved T0 k0 [] c0 (Reset c0) [5] newCipher_k0
    (reset_inv c0 (newCipher_inv T0 k0 [] c0 newCipher_k0))

/-- C9: applying the keystream to an empty source returns an empty output
and leaves the cipher state (register, buffer, cursor, key material and
keyed tables) unchanged, generating no round. -/
theorem xorKeyStream_empty_frame (t : Tables) (c : Cipher) :
    XORKeyStream t c [] = ([], c) := rfl

/-- C10: successful construction has already run one round: the cursor is 0,
the 20-byte buffer holds the first round's keystream, and any first request
of at most 20 bytes only consumes the buffer, leaving the register and
buffer untouched and triggering no round. -/
theorem newCipher_first_round (t : Tables) (key iv : List Nat) (c : Cipher)
    (h : NewCipher t key iv = .ok c) :
    c = nextRound t (initIV t (initKey t zeroCipher key) iv) ∧
      c.bufpos = 0 ∧ c.buffer.length = 20 ∧
      ∀ src : List Nat, src.length ≤ 20 →
        XORKeyStream t c src =
          ((List.range src.length).map
            (fun i => src.getD i 0 ^^^ c.buffer.getD i 0),
           ⟨c.key, c.keybox, c.reg, c.buffer, src.length⟩) := by
  obtain rfl := newCipher_ok_form t key iv c h
  refine ⟨rfl, rfl, ?_, ?_⟩
  · show (splitWord _ ++ splitWord _ ++ splitWord _ ++ splitWord _ ++
      splitWord _).length = 20
    simp [splitWord]
  · intro src hsrc
    have h0 : (nextRound t (initIV t (initKey t zeroCipher key) iv)).bufpos
        = 0 := rfl
    have := xorKeyStream_no_refill t
      (nextRound t (initIV t (initKey t zeroCipher key) iv)) src
      (by rw [h0]; omega)
    rw [this, h0]
    simp

/-- C10 witness: a concrete first request of two bytes consumes only the
construction-time buffer. -/
theorem newCipher_first_round_witness :
    XORKeyStream T0 c0 [3, 5] =
      ((List.range 2).map (fun i => [3, 5].getD i 0 ^^^ c0.buffer.getD i 0),
       ⟨c0.key, c0.keybox, c0.reg, c0.buffer, 2⟩) :=
  (newCipher_first_round T0 k0 [] c0 newCipher_k0).2.2.2 [3, 5]
    (by decide)

end Turing
